import Mathlib

/- Shallow embedding of clawio/service.localstore.prop (src/server.go).

   The service keeps one row per filesystem path (table `records`, gorm model
   `record` with columns id, path, checksum, e_tag, m_time) and, on every
   mutation, propagates a fresh fingerprint (etag, mtime) to ancestor
   directories up to the user's home directory.

   Modelling conventions:
   - The store is the list of rows of the `records` table.
   - `uuid.New()` and `time.Now().Unix()` are passed in as explicit
     arguments (`etag`, `mtime`): the embedding is parametric in the
     generated values.
   - Database failures are modelled by explicit boolean oracles
     (`queryFails`, `updFails`, `insertFails`, `delFails`): the oracle says
     whether the corresponding statement errors.
   - A Go runtime panic (the out-of-range slice `tokens[0:5]` in
     `getPathsTillHome`) is modelled as `Option.none`; an ordinary
     error return is the boolean `false` in the `Store × Bool` result
     (`true` = the handler returned a nil error).
   - The Go standard-library path/string helpers used by server.go
     (`path.Clean`, `path.Join`, `strings.Split`, `strings.Trim`,
     and the `LIKE p%` string-prefix test) are re-implemented below on
     lists of characters, following their documented semantics, so that
     all definitions are executable by the kernel.
   - Identity verification (`lib.ParseToken`) and trace-id plumbing are
     outside every claim: all operations are modelled after a successful
     token check. -/

/-- One row of the `records` table: the gorm `record` model used throughout
server.go (fields ID, Path, Checksum, ETag, MTime mapped to columns
id, path, checksum, e_tag, m_time). -/
structure Record where
  id : String
  path : String
  checksum : String
  etag : String
  mtime : Nat
  deriving DecidableEq

/-- The `records` table contents. -/
abbrev Store := List Record

/- Go standard-library helpers used by server.go. -/

/-- strings.Split(s, "/") on the underlying character list: split at every
separator, keeping empty fields (Go semantics for a one-character
separator). -/
def splitOnChar (c : Char) : List Char → List (List Char)
  | [] => [[]]
  | x :: xs =>
      let rest := splitOnChar c xs
      if x = c then [] :: rest
      else
        match rest with
        | [] => [[x]]
        | g :: gs => (x :: g) :: gs

/-- strings.Split(s, "/"). -/
def goSplitSlash (s : String) : List String :=
  (splitOnChar '/' s.toList).map String.mk

/-- Whether `pre` is a leading run of `s` (character lists). -/
def listLeads : List Char → List Char → Bool
  | [], _ => true
  | _ :: _, [] => false
  | x :: xs, y :: ys => x = y && listLeads xs ys

/-- The SQL pattern `path LIKE p || "%"` used by server.go for subtree
queries: a raw string-prefix test (strings.HasPrefix semantics), with no
path-segment boundary check. -/
def goHasPre (s pre : String) : Bool :=
  listLeads pre.toList s.toList

/-- strings.Trim(s, cutset): drop from both ends every leading/trailing
character that occurs anywhere in `cutset` (a character-set trim, not a
prefix/suffix removal). -/
def goTrim (s cutset : String) : String :=
  let cs := cutset.toList
  String.mk (((s.toList.dropWhile (fun c => cs.contains c)).reverse.dropWhile
      (fun c => cs.contains c)).reverse)

/-- The segment stack built by path.Clean: skip empty and "." segments,
resolve ".." against the stack (dropping it at the root of a rooted path,
keeping it for relative paths). The stack is kept reversed (top first). -/
def cleanStack (rooted : Bool) : List String → List String → List String
  | acc, [] => acc
  | acc, seg :: rest =>
      if seg = "" ∨ seg = "." then cleanStack rooted acc rest
      else if seg = ".." then
        match acc with
        | [] =>
            if rooted then cleanStack rooted [] rest
            else cleanStack rooted [".."] rest
        | top :: accRest =>
            if top = ".." then cleanStack rooted (seg :: top :: accRest) rest
            else cleanStack rooted accRest rest
      else cleanStack rooted (seg :: acc) rest

/-- path.Clean: lexical normalization of a slash-separated path (collapse
separators, resolve "." and "..", no trailing slash; "" cleans to "."). -/
def goClean (p : String) : String :=
  if p = "" then "."
  else
    let rooted := goHasPre p "/"
    let body := String.intercalate "/" ((cleanStack rooted [] (goSplitSlash p)).reverse)
    if rooted then
      if body = "" then "/" else "/" ++ body
    else
      if body = "" then "." else body

/-- path.Join of two elements: skip empty elements, join with "/", Clean the
result; Join of all-empty elements is "". -/
def goJoin (a b : String) : String :=
  if a = "" then (if b = "" then "" else goClean b)
  else if b = "" then goClean a
  else goClean (a ++ "/" ++ b)

/-- Variadic path.Join: drop leading empty elements, join the remainder
(interior empties included) with "/", then Clean; all-empty gives "". -/
def goJoinList : List String → String
  | [] => ""
  | e :: rest =>
      if e = "" then goJoinList rest
      else goClean (String.intercalate "/" (e :: rest))

/- server.go definitions. -/

/-- getPathsTillHome (server.go:319): split the path on "/", take the first
five tokens as the home directory, then extend one token at a time.
`tokens[0:5]` panics in Go when the path has fewer than five tokens; the
panic is modelled as `none`.  Note the returned list ends with the input
path itself (the source carries a `TODO remove current dir from returned
list`). -/
def getPathsTillHome (p : String) : Option (List String) :=
  let tokens := goSplitSlash p
  if tokens.length < 5 then none
  else
    let home := goClean ("/" ++ goJoinList (tokens.take 5))
    let step : List String → String → List String := fun acc token =>
      match acc with
      | [] => [goJoin home (goClean token)]
      | prev :: _ => goJoin prev (goClean token) :: acc
    some (home :: ((tokens.drop 5).foldl step []).reverse)

/-- The row transformation of `update` (server.go:292): gorm
`Updates(record{ETag: etag, MTime: mtime})` on the rows matched by
`path=? AND m_time < ?` (the generated etag/mtime are never gorm zero
values, so both columns are always written). -/
def updRec (p e : String) (m : Nat) (r : Record) : Record :=
  if r.path = p ∧ r.mtime < m then { r with etag := e, mtime := m } else r

/-- update (server.go:292): conditionally set etag/mtime on the record at
`p` when its stored m_time is strictly smaller, returning the new table and
RowsAffected. -/
def update (s : Store) (p e : String) (m : Nat) : Store × Nat :=
  (s.map (updRec p e m), s.countP (fun r => decide (r.path = p ∧ r.mtime < m)))

/-- The loop body sequence of propagateChanges (server.go:303): apply
`update` for each path of the list in order (RowsAffected is only
logged). -/
def propFold (e : String) (m : Nat) : List String → Store → Store
  | [], s => s
  | q :: rest, s => propFold e m rest (update s q e m).1

/-- propagateChanges (server.go:303): resolve the ancestor list with
getPathsTillHome and run the conditional update on every entry; always
returns a nil error.  `stopPath` is accepted and ignored, as in the
source.  `none` models the panic inherited from getPathsTillHome. -/
def propagateChanges (st : Store) (p etag : String) (mtime : Nat)
    (stopPath : String) : Option Store :=
  match getPathsTillHome p with
  | none => none
  | some paths => some (propFold etag mtime paths st)

/-- getByPath (server.go:273): exact-match lookup; `none` models
gorm.RecordNotFound. -/
def getByPath (st : Store) (p : String) : Option Record :=
  st.find? (fun r => r.path == p)

/-- Modelled from the spec: the SQL schema of the `records` table (its
unique keys, created by AutoMigrate from the gorm model, which is not under
src/) decides which duplicate fires the `ON DUPLICATE KEY UPDATE` clause of
`insert` (server.go:280); spec section 3 states "Exactly one record per
normalized path ... uniqueness enforced by upsert semantics keyed on path".
So a row with the same path is updated in place (checksum, e_tag, m_time —
exactly the three columns the INSERT statement updates, preserving id and
path), and otherwise a new row is appended. -/
def insertRec (st : Store) (id p checksum etag : String) (mtime : Nat) : Store :=
  if st.any (fun r => r.path == p) then
    st.map (fun r =>
      if r.path = p then { r with checksum := checksum, etag := etag, mtime := mtime } else r)
  else
    st ++ [⟨id, p, checksum, etag, mtime⟩]

/-- getRecordsWithPathPrefix (server.go:172): `path LIKE p%` scan.  On a
query error the function logs and returns the untouched (empty) slice with
a nil error — the second component is `true` exactly when the returned
error is nil, and it is `true` on both branches. -/
def getRecordsWithPathPre (st : Store) (queryFails : Bool) (p : String) :
    List Record × Bool :=
  if queryFails then ([], true)
  else (st.filter (fun r => goHasPre r.path p), true)

/-- The per-record loop of Mv (server.go:147): for each matched record
compute `path.Join(dst, path.Clean(strings.Trim(rec.Path, src)))` and issue
`s.db.Model(record{}).Where("id=?", rec.ID).Updates(...)`.  The updates run
on `s.db`, not on the transaction handle `tx`, so each successful update is
immediately applied to the table and `tx.Rollback()` (taken on the first
failing update, when the loop returns the error) has no statements to
undo: the error result carries the partially rewritten table. -/
def mvLoop (updFails : Nat → Bool) (dst src etag : String) (mtime : Nat) :
    List Record → Nat → Store → Except Store Store
  | [], _, st => Except.ok st
  | r0 :: rest, i, st =>
      if updFails i then Except.error st
      else
        let newPath := goJoin dst (goClean (goTrim r0.path src))
        mvLoop updFails dst src etag mtime rest (i + 1)
          (st.map (fun r =>
            if r.id = r0.id then { r with path := newPath, etag := etag, mtime := mtime } else r))

/-- Mv (server.go:117): clean src/dst, fetch the `LIKE src%` records, batch
rewrite them with one shared fresh etag/mtime, then propagate the
fingerprint from dst.  The (unreachable) lookup-error branch returns a nil
error with the store untouched.  Errors from propagateChanges are only
logged, and the handler returns a nil error. -/
def mv (st : Store) (reqSrc reqDst etag : String) (mtime : Nat)
    (queryFails : Bool) (updFails : Nat → Bool) : Option (Store × Bool) :=
  let src := goClean reqSrc
  let dst := goClean reqDst
  let found := getRecordsWithPathPre st queryFails src
  if found.2 = false then some (st, true)
  else
    match mvLoop updFails dst src etag mtime found.1 0 st with
    | Except.error st1 => some (st1, false)
    | Except.ok st1 =>
        match propagateChanges st1 dst etag mtime "" with
        | none => none
        | some st2 => some (st2, true)

/-- Rm (server.go:184): clean the path, delete every row with
`path LIKE p% AND m_time < ts` (ts is Rm's start time), then propagate a
fresh fingerprint from p.  `delFails` models a store error of the DELETE
(surfaced to the caller with the table unchanged); propagation errors are
only logged. -/
def rm (st : Store) (reqPath : String) (ts : Nat) (etag : String)
    (delFails : Bool) : Option (Store × Bool) :=
  let p := goClean reqPath
  if delFails then some (st, false)
  else
    let st1 := st.filter (fun r => !(goHasPre r.path p && decide (r.mtime < ts)))
    match propagateChanges st1 p etag ts "" with
    | none => none
    | some st2 => some (st2, true)

/-- Put (server.go:219): clean the path, reuse the id of an existing record
at that path (or mint a new one, passed in as `newId`), upsert the row with
a fresh etag/mtime, then propagate the fingerprint.  An insert error is
surfaced; propagation cannot return an error (and its zero-row updates are
only logged). -/
def put (st : Store) (reqPath checksum newId etag : String) (mtime : Nat)
    (insertFails : Bool) : Option (Store × Bool) :=
  let p := goClean reqPath
  let id := match getByPath st p with
            | some r => r.id
            | none => newId
  if insertFails = true then some (st, false)
  else
    let st1 := insertRec st id p checksum etag mtime
    match propagateChanges st1 p etag mtime "" with
    | none => none
    | some st2 => some (st2, true)

/- Helper lemmas about the conditional fingerprint update and its
propagation loop. -/

theorem updRec_mtime_ge (p e : String) (m : Nat) (r : Record)
    (hp : (updRec p e m r).path = p) : m ≤ (updRec p e m r).mtime := by
  unfold updRec at hp ⊢
  by_cases hc : r.path = p ∧ r.mtime < m
  · rw [if_pos hc]
  · rw [if_neg hc] at hp ⊢
    push_neg at hc
    have := hc hp
    omega

theorem update_establishes (s : Store) (q e : String) (m : Nat) :
    ∀ r ∈ (update s q e m).1, r.path = q → m ≤ r.mtime := by
  intro r hr hpq
  simp only [update] at hr
  rcases List.mem_map.mp hr with ⟨r0, _, rfl⟩
  exact updRec_mtime_ge q e m r0 hpq

theorem update_preserves (s : Store) (q q0 e : String) (m : Nat)
    (h : ∀ r ∈ s, r.path = q0 → m ≤ r.mtime) :
    ∀ r ∈ (update s q e m).1, r.path = q0 → m ≤ r.mtime := by
  intro r hr hpq
  simp only [update] at hr
  rcases List.mem_map.mp hr with ⟨r0, hr0, rfl⟩
  unfold updRec at hpq ⊢
  by_cases hc : r0.path = q ∧ r0.mtime < m
  · rw [if_pos hc]
  · rw [if_neg hc] at hpq ⊢
    exact h r0 hr0 hpq

theorem propFold_preserves (e : String) (m : Nat) (ps : List String) (q0 : String) :
    ∀ s : Store, (∀ r ∈ s, r.path = q0 → m ≤ r.mtime) →
      ∀ r ∈ propFold e m ps s, r.path = q0 → m ≤ r.mtime := by
  induction ps with
  | nil => intro s h; exact h
  | cons q rest ih =>
      intro s h
      exact ih _ (update_preserves s q q0 e m h)

theorem propFold_establishes (e : String) (m : Nat) (q0 : String) :
    ∀ ps : List String, q0 ∈ ps →
      ∀ s : Store, ∀ r ∈ propFold e m ps s, r.path = q0 → m ≤ r.mtime := by
  intro ps
  induction ps with
  | nil => intro hq; cases hq
  | cons q rest ih =>
      intro hq s
      rcases List.mem_cons.mp hq with heq | hmem
      · subst heq
        exact propFold_preserves e m rest q0 _ (update_establishes s q0 e m)
      · exact ih hmem _

/-- Claim C1: Mv is claimed to rewrite exactly the records under the
segment-bounded prefix src, replacing the prefix src by dst.  Evaluating Mv
on a store holding "/local/users/d/demo/photos/xya" (segment-bounded match)
and "/local/users/d/demo/photoshop" (string-prefix match only) with
src = "/local/users/d/demo/photos", dst = "/local/users/d/demo/pics" shows
both rows rewritten: the first to ".../pics/xy" (strings.Trim has eaten the
trailing "a" of "xya", so the new path is not the prefix replacement), the
second — which the claim says must stay untouched — collapses to dst
itself, since strings.Trim(path, src) trims by character set and removes
every character of "photoshop". -/
theorem mv_rewrite_bug_eval :
    mv [⟨"id1", "/local/users/d/demo/photos/xya", "ck1", "e1", 1⟩,
        ⟨"id2", "/local/users/d/demo/photoshop", "ck2", "e2", 2⟩]
       "/local/users/d/demo/photos" "/local/users/d/demo/pics" "E" 100
       false (fun _ => false)
      = some ([⟨"id1", "/local/users/d/demo/pics/xy", "ck1", "E", 100⟩,
               ⟨"id2", "/local/users/d/demo/pics", "ck2", "E", 100⟩], true) := by
  decide

/-- Claim C2: Mv's batch rewrite is claimed to be atomic (all rollback on
any row failure).  In the source the row updates are issued on `s.db`
while only the empty handle `tx` is rolled back, so when the second row
update fails the first row stays rewritten: Mv returns an error yet the
resulting table differs from the initial one. -/
theorem mv_partial_failure_eval :
    mv [⟨"id1", "/local/users/d/demo/photos/xya", "ck1", "e1", 1⟩,
        ⟨"id2", "/local/users/d/demo/photoshop", "ck2", "e2", 2⟩]
       "/local/users/d/demo/photos" "/local/users/d/demo/pics" "E" 100
       false (fun i => i == 1)
      = some ([⟨"id1", "/local/users/d/demo/pics/xy", "ck1", "E", 100⟩,
               ⟨"id2", "/local/users/d/demo/photoshop", "ck2", "e2", 2⟩], false) ∧
    ([⟨"id1", "/local/users/d/demo/pics/xy", "ck1", "E", 100⟩,
      ⟨"id2", "/local/users/d/demo/photoshop", "ck2", "e2", 2⟩] : Store)
      ≠ [⟨"id1", "/local/users/d/demo/photos/xya", "ck1", "e1", 1⟩,
         ⟨"id2", "/local/users/d/demo/photoshop", "ck2", "e2", 2⟩] := by
  decide

/-- Claim C3: the resolver is claimed to return the ancestors from the home
directory up to the parent, exclusive of the path itself.  Evaluating
getPathsTillHome on the example of the source's own doc comment shows the
returned list ends with the full input path "/local/users/d/demo/photos/1.png"
itself, not with its parent (the `TODO remove current dir from returned
list` in the source acknowledges this). -/
theorem getPathsTillHome_includes_target_eval :
    getPathsTillHome "/local/users/d/demo/photos/1.png"
      = some ["/local/users/d/demo", "/local/users/d/demo/photos",
              "/local/users/d/demo/photos/1.png"] := by
  decide

/-- Claim C5: the resolver is claimed to reject too-shallow paths with an
explicit InvalidPath failure.  On "/a/b" (three tokens, fewer than five)
the slice expression `tokens[0:5]` is out of range and the Go function
panics — modelled as `none` — so no explicit error value is ever
produced. -/
theorem getPathsTillHome_shallow_panics_eval :
    getPathsTillHome "/a/b" = none := by
  decide

/-- Claim C6: Rm is claimed to delete only segment-bounded prefix matches.
Evaluating Rm with path "/local/users/d/demo/photos" on a store whose only
record is "/local/users/d/demo/photoshop" (a string-prefix match that is
not on a segment boundary, with mtime 5 older than the start time 10)
shows the record is deleted: the `path LIKE p%` filter has no segment
boundary check. -/
theorem rm_string_boundary_eval :
    rm [⟨"id2", "/local/users/d/demo/photoshop", "ck2", "e2", 5⟩]
       "/local/users/d/demo/photos" 10 "E" false
      = some ([], true) := by
  decide

/-- Claim C8: a ConditionalUpdateFingerprint call (the `update` helper)
whose mtime is older than every stored mtime at the path is a no-op: the
table is returned unchanged and RowsAffected is zero. -/
theorem update_stale_mtime_noop (s : Store) (p e : String) (m : Nat)
    (h : ∀ r ∈ s, r.path = p → m < r.mtime) :
    update s p e m = (s, 0) := by
  unfold update
  have hmap : ∀ l : List Record, (∀ r ∈ l, r.path = p → m < r.mtime) →
      l.map (updRec p e m) = l := by
    intro l
    induction l with
    | nil => intro _; rfl
    | cons a as ih =>
        intro hl
        have ha : updRec p e m a = a := by
          unfold updRec
          rw [if_neg]
          rintro ⟨hp, hlt⟩
          have := hl a (List.mem_cons_self a as) hp
          omega
        rw [List.map_cons, ha, ih (fun r hr => hl r (List.mem_cons_of_mem a hr))]
  have hcount : ∀ l : List Record, (∀ r ∈ l, r.path = p → m < r.mtime) →
      l.countP (fun r => decide (r.path = p ∧ r.mtime < m)) = 0 := by
    intro l
    induction l with
    | nil => intro _; rfl
    | cons a as ih =>
        intro hl
        have ha : (decide (a.path = p ∧ a.mtime < m)) = false := by
          simp only [decide_eq_false_iff_not]
          rintro ⟨hp, hlt⟩
          have := hl a (List.mem_cons_self a as) hp
          omega
        rw [List.countP_cons, ha, ih (fun r hr => hl r (List.mem_cons_of_mem a hr))]
        simp
  rw [hmap s h, hcount s h]

/-- Witness for claim C8 at a concrete store: a record with stored mtime 10
is untouched by an update carrying mtime 3, and zero rows are affected. -/
theorem update_stale_mtime_noop_w :
    update [⟨"i", "/x", "c", "e", 10⟩] "/x" "E" 3
      = ([⟨"i", "/x", "c", "e", 10⟩], 0) :=
  update_stale_mtime_noop [⟨"i", "/x", "c", "e", 10⟩] "/x" "E" 3 (by decide)

/-- Claim C4: after a successful Put, every path in the resolved ancestor
list of the written path whose record is present in the resulting store
carries an mtime at least the mtime of the record just written (the
conditional update either raises a stale ancestor to the new mtime or
leaves an already newer one in place). -/
theorem put_propagates_mtime_to_ancestors
    (st : Store) (reqPath ck nid etag : String) (mt : Nat)
    (st' : Store) (paths : List String) (q : String) (r : Record)
    (hpaths : getPathsTillHome (goClean reqPath) = some paths)
    (hput : put st reqPath ck nid etag mt false = some (st', true))
    (hq : q ∈ paths) (hr : r ∈ st') (hpq : r.path = q) :
    mt ≤ r.mtime := by
  unfold put at hput
  simp only [propagateChanges] at hput
  rw [hpaths, if_neg (show ¬(false = true) by decide)] at hput
  simp only [Option.some.injEq, Prod.mk.injEq, and_true] at hput
  subst hput
  exact propFold_establishes etag mt q paths hq _ r hr hpq

/-- Witness for claim C4: putting "/a/b/c/d/e" with mtime 7 into the empty
store leaves the record at the written path itself (an entry of the
resolved list) with mtime at least 7. -/
theorem put_propagates_mtime_to_ancestors_w :
    (7 : Nat) ≤ (Record.mk "i" "/a/b/c/d/e" "" "e" 7).mtime :=
  put_propagates_mtime_to_ancestors [] "/a/b/c/d/e" "" "i" "e" 7
    [⟨"i", "/a/b/c/d/e", "", "e", 7⟩] ["/a/b/c/d", "/a/b/c/d/e"]
    "/a/b/c/d/e" ⟨"i", "/a/b/c/d/e", "", "e", 7⟩
    (by decide) (by decide) (by decide) (by decide) (by decide)

/-- Claim C7 (counterexample to the unrestricted claim): on the shallow
path "/a" the upsert succeeds and then getPathsTillHome panics inside the
propagation step, so Put does not return success — the overall call is
lost to the runtime panic rather than reporting the committed write. -/
theorem put_shallow_path_no_success :
    put [] "/a" "" "i" "e" 5 false = none := by
  decide

/-- Claim C7 (amended): for every Put on a path that is deep enough for the
ancestor resolver (at least five slash-separated tokens after cleaning),
if the upsert of the primary record succeeds then Put returns success,
regardless of the outcome of ancestor propagation (zero-row conditional
updates are only logged, and propagateChanges cannot return an error). -/
theorem put_ok_despite_propagation
    (st : Store) (reqPath ck nid etag : String) (mt : Nat)
    (h : 5 ≤ (goSplitSlash (goClean reqPath)).length) :
    ∃ st', put st reqPath ck nid etag mt false = some (st', true) := by
  have hsome : ∃ ps, getPathsTillHome (goClean reqPath) = some ps := by
    simp only [getPathsTillHome]
    rw [if_neg (by omega)]
    exact ⟨_, rfl⟩
  rcases hsome with ⟨ps, hps⟩
  unfold put
  simp only [propagateChanges]
  rw [hps]
  exact ⟨_, rfl⟩

/-- Witness for the amended claim C7 at the concrete path "/a/b/c/d/e". -/
theorem put_ok_despite_propagation_w :
    ∃ st', put [] "/a/b/c/d/e" "" "i" "e" 7 false = some (st', true) :=
  put_ok_despite_propagation [] "/a/b/c/d/e" "" "i" "e" 7 (by decide)

/- Helper lemmas: the propagation loop never changes a record's id, path or
checksum (it only touches etag/mtime). -/

theorem updRec_same_proj (p e : String) (m : Nat) (r : Record) :
    (updRec p e m r).id = r.id ∧ (updRec p e m r).path = r.path ∧
      (updRec p e m r).checksum = r.checksum := by
  unfold updRec
  split
  · exact ⟨rfl, rfl, rfl⟩
  · exact ⟨rfl, rfl, rfl⟩

theorem propFold_same_proj (e : String) (m : Nat) :
    ∀ (ps : List String) (s : Store),
      (propFold e m ps s).map (fun r => (r.id, r.path, r.checksum))
        = s.map (fun r => (r.id, r.path, r.checksum)) := by
  intro ps
  induction ps with
  | nil => intro s; rfl
  | cons q rest ih =>
      intro s
      have hone : ((update s q e m).1).map (fun r => (r.id, r.path, r.checksum))
          = s.map (fun r => (r.id, r.path, r.checksum)) := by
        simp only [update, List.map_map]
        apply List.map_congr_left
        intro a _
        rcases updRec_same_proj q e m a with ⟨h1, h2, h3⟩
        simp [Function.comp, h1, h2, h3]
      calc (propFold e m (q :: rest) s).map (fun r => (r.id, r.path, r.checksum))
          = ((update s q e m).1).map (fun r => (r.id, r.path, r.checksum)) :=
            ih (update s q e m).1
        _ = s.map (fun r => (r.id, r.path, r.checksum)) := hone

/-- Claim C9 (counterexample to the unrestricted claim): Mv with a src that
matches no record is claimed to leave the store entirely unchanged.  On a
store holding a record at "/local/users/d/demo" — an ancestor of dst — an
Mv with non-matching src "/local/users/d/demo/photos/none" and dst
"/local/users/d/demo/pics" returns success but still runs the fingerprint
propagation from dst, raising that ancestor's etag/mtime: the resulting
store differs from the initial one. -/
theorem mv_nomatch_changes_store :
    mv [⟨"idh", "/local/users/d/demo", "", "e0", 1⟩]
       "/local/users/d/demo/photos/none" "/local/users/d/demo/pics" "E" 100
       false (fun _ => false)
      = some ([⟨"idh", "/local/users/d/demo", "", "E", 100⟩], true) ∧
    ([⟨"idh", "/local/users/d/demo", "", "E", 100⟩] : Store)
      ≠ [⟨"idh", "/local/users/d/demo", "", "e0", 1⟩] := by
  decide

/-- Claim C9 (amended): Mv on a src matching no records returns a nil error
(whenever dst is deep enough that the ancestor resolver does not panic,
i.e. whenever propagation terminates), rewrites no record — every record's
id, path and checksum are exactly as before — but still propagates the
freshly generated fingerprint from dst, which may update the etag/mtime of
existing ancestor records of dst. -/
theorem mv_nomatch_ok (st : Store) (reqSrc reqDst etag : String) (mt : Nat)
    (updF : Nat → Bool) (st' : Store)
    (hnm : ∀ r ∈ st, goHasPre r.path (goClean reqSrc) = false)
    (hprop : propagateChanges st (goClean reqDst) etag mt "" = some st') :
    mv st reqSrc reqDst etag mt false updF = some (st', true) ∧
      st'.map (fun r => (r.id, r.path, r.checksum))
        = st.map (fun r => (r.id, r.path, r.checksum)) := by
  have hfilter : st.filter (fun r => goHasPre r.path (goClean reqSrc)) = [] := by
    apply List.filter_eq_nil_iff.mpr
    intro a ha
    simp [hnm a ha]
  constructor
  · unfold mv
    simp only [getRecordsWithPathPre]
    rw [if_neg (show ¬(false = true) by decide)]
    rw [hfilter]
    rw [if_neg (show ¬(true = false) by decide)]
    simp only [mvLoop]
    rw [hprop]
  · unfold propagateChanges at hprop
    cases hpt : getPathsTillHome (goClean reqDst) with
    | none => rw [hpt] at hprop; cases hprop
    | some ps =>
        rw [hpt] at hprop
        have hst : st' = propFold etag mt ps st := by
          injection hprop with h
          exact h.symm
        subst hst
        exact propFold_same_proj etag mt ps st

/-- Witness for the amended claim C9 on the empty store with a deep dst. -/
theorem mv_nomatch_ok_w :
    mv [] "/q/q/q/q/q/q" "/a/b/c/d/e" "E" 9 false (fun _ => false)
        = some ([], true) ∧
      ([] : Store).map (fun r => (r.id, r.path, r.checksum))
        = ([] : Store).map (fun r => (r.id, r.path, r.checksum)) :=
  mv_nomatch_ok [] "/q/q/q/q/q/q" "/a/b/c/d/e" "E" 9 (fun _ => false) []
    (by decide) (by decide)

/-- Claim C10: getRecordsWithPathPrefix returns a nil error for every
input, including a failing store query (first conjunct: the error
component is `true`, i.e. nil, for both oracle values); consequently the
lookup-error branch of Mv is dead, and an Mv whose prefix lookup fails
behaves exactly as an Mv that matched no records: it skips the rewrite
loop, runs propagation from dst, and flags success on every non-panicking
outcome (second conjunct). -/
theorem getRecords_error_swallowed_mv_nomatch :
    (∀ (st : Store) (q : Bool) (p : String),
      ( getRecordsWithPathPre st q p).2 = true) ∧
    (∀ (st : Store) (reqSrc reqDst etag : String) (mt : Nat) (updF : Nat → Bool),
      mv st reqSrc reqDst etag mt true updF
        = (propagateChanges st (goClean reqDst) etag mt "").map (fun s => (s, true))) := by
  constructor
  · intro st q p
    cases q
    · rfl
    · rfl
  · intro st reqSrc reqDst etag mt updF
    unfold mv
    simp only [getRecordsWithPathPre]
    simp only [if_true]
    rw [if_neg (show ¬(true = false) by decide)]
    simp only [mvLoop]
    cases hpt : propagateChanges st (goClean reqDst) etag mt "" with
    | none => rfl
    | some s2 => rfl
